import Mathlib

/-!
# Verification of the gostreampuller binary-provisioning and media pipeline

Shallow embedding of the Go sources (package `installer` and package
`downloader`) of the go-video-downloader repository.  Pure Go helpers become
Lean functions; the filesystem is an explicit list of existing file paths;
outcomes of external effects (HTTP reads, subprocess exit codes, the extension
chosen by the fetch tool) are oracle parameters.  Strings model Go strings,
`Int`/`Nat` model Go integers, and `ℚ` models `float64` where an exact value
is computed (divisions here are exact in the claims under study).
-/

namespace GoStreamPuller

/-! ## Go string / path helpers

`strContains` embeds `strings.Contains` (substring containment).
`splitAtFirst` finds the first occurrence of a pattern in a character list and
returns the pieces before and after it; `replaceFirst` embeds
`strings.Replace(s, pat, rep, 1)`.  `joinPath` embeds `filepath.Join` for the
two-component, already-clean paths used by this code base, and `absPath`
embeds `filepath.Abs` on a Unix system with current directory `cwd`. -/

def charsPre : List Char → List Char → Bool
  | [], _ => true
  | _ :: _, [] => false
  | a :: as, b :: bs => a = b && charsPre as bs

def charsContain : List Char → List Char → Bool
  | s, pat =>
    if charsPre pat s then true
    else match s with
      | [] => false
      | _ :: rest => charsContain rest pat

def strContains (s sub : String) : Bool :=
  charsContain s.toList sub.toList

def splitAtFirst : List Char → List Char → Option (List Char × List Char)
  | [], pat => if pat.isEmpty then some ([], []) else none
  | c :: rest, pat =>
    if charsPre pat (c :: rest) then some ([], (c :: rest).drop pat.length)
    else (splitAtFirst rest pat).map (fun p => (c :: p.1, p.2))

def replaceFirst (s pat rep : String) : String :=
  match splitAtFirst s.toList pat.toList with
  | some (before, after) => ⟨before ++ rep.toList ++ after⟩
  | none => s

def joinPath (dir name : String) : String :=
  if dir = "" then name else dir ++ "/" ++ name

def isAbsPath (p : String) : Bool :=
  match p.toList with
  | [] => false
  | c :: _ => c = '/'

def absPath (cwd p : String) : String :=
  if isAbsPath p then p else joinPath cwd p

/-! ## Archive extractor (`installer.extractFFMPEGFromZip` / `...FromTar`)

An archive entry carries its name, whether it is a regular file (`isReg`;
zip directory entries and tar non-regular entries have it `false`) and its
byte content (empty for a directory entry, since opening a zip directory entry
yields an empty reader).  `ExtractResult` records what an extraction run did:
the file name written under the destination directory (`destName`), the name
of the archive entry that was selected (`srcName`), the bytes streamed into
the destination (`content`), and whether the executable permission bit was set
on the destination (`execBit`). -/

structure ArchiveEntry where
  name : String
  isReg : Bool
  content : List Nat
  deriving Repr, DecidableEq

structure ExtractResult where
  destName : String
  srcName : String
  content : List Nat
  execBit : Bool
  deriving Repr, DecidableEq

/-- Go `extractFFMPEGFromZip`: scan `r.File` in order; the first entry whose
name contains the target executable name and does not contain `"doc"` is
streamed to `destDir/executable`; `os.Chmod 0755` runs only when
`runtime.GOOS != "windows"`.  Note the Go loop tests only the entry name — it
never checks `f.Mode()`, so directory entries participate in the match. -/
def extractFFMPEGFromZip (isWindows : Bool) : List ArchiveEntry → Except String ExtractResult
  | [] => .error "ffmpeg binary not found in archive"
  | e :: rest =>
    let executable := if isWindows then "ffmpeg.exe" else "ffmpeg"
    if strContains e.name executable ∧ ¬ strContains e.name "doc" then
      .ok ⟨executable, e.name, e.content, !isWindows⟩
    else
      extractFFMPEGFromZip isWindows rest

/-- Go `extractFFMPEGFromTar`: scan tar headers in order; the first entry whose
name contains `"ffmpeg"`, does not contain `"doc"`, and has
`header.Typeflag == tar.TypeReg` is streamed to `destDir/"ffmpeg"`, and
`os.Chmod 0755` runs unconditionally. -/
def extractFFMPEGFromTar : List ArchiveEntry → Except String ExtractResult
  | [] => .error "ffmpeg binary not found in archive"
  | e :: rest =>
    if strContains e.name "ffmpeg" ∧ ¬ strContains e.name "doc" ∧ e.isReg then
      .ok ⟨"ffmpeg", e.name, e.content, true⟩
    else
      extractFFMPEGFromTar rest

/-- Spec-side selection rule, written from the spec's words: "select the first
regular-file entry whose name contains the target executable's base name and
does not contain \"doc\"". -/
def specSelectEntry (executable : String) (entries : List ArchiveEntry) : Option ArchiveEntry :=
  entries.find? (fun e => strContains e.name executable && !strContains e.name "doc" && e.isReg)

/-- Spec-side description of the zip extraction outcome, for comparison with
`extractFFMPEGFromZip`: the first name-matching entry of any kind wins. -/
def zipExtractSpec (isWindows : Bool) (entries : List ArchiveEntry) : Except String ExtractResult :=
  let executable := if isWindows then "ffmpeg.exe" else "ffmpeg"
  match entries.find? (fun e => strContains e.name executable && !strContains e.name "doc") with
  | some e => .ok ⟨executable, e.name, e.content, !isWindows⟩
  | none => .error "ffmpeg binary not found in archive"

/-- Spec-side description of the tar extraction outcome, for comparison with
`extractFFMPEGFromTar`: the first name-matching regular-file entry wins. -/
def tarExtractSpec (entries : List ArchiveEntry) : Except String ExtractResult :=
  match specSelectEntry "ffmpeg" entries with
  | some e => .ok ⟨"ffmpeg", e.name, e.content, true⟩
  | none => .error "ffmpeg binary not found in archive"

/-! ## Binary download with progress (`installer.downloadFile`)

The read loop repeatedly calls `resp.Body.Read(buf)`; each call returns a
chunk size `n` (the final call returns `io.EOF`).  The chunk sizes are the
oracle `chunks`.  After writing a chunk with `n > 0`, a progress report is
produced only when `progressFn != nil && total > 0`, where
`total = resp.ContentLength` (`-1` when the server sends no Content-Length);
its percentage is `float64(downloaded)/float64(total)*100`, modelled exactly
over `ℚ`. -/

structure DlReport where
  bytesDownloaded : Nat
  totalBytes : Int
  percentage : ℚ
  deriving Repr, DecidableEq

def downloadReportsAux (hasObserver : Bool) (total : Int) (downloaded : Nat) :
    List Nat → List DlReport
  | [] => []
  | n :: rest =>
    if 0 < n then
      (if hasObserver ∧ 0 < total then
        [⟨downloaded + n, total, ((downloaded + n : Nat) : ℚ) / (total : ℚ) * 100⟩]
      else []) ++ downloadReportsAux hasObserver total (downloaded + n) rest
    else
      downloadReportsAux hasObserver total downloaded rest

def downloadFileReports (hasObserver : Bool) (total : Int) (chunks : List Nat) : List DlReport :=
  downloadReportsAux hasObserver total 0 chunks

/-- Spec-side helper: the running byte totals after each chunk that actually
delivered bytes ("the bytes written so far"). -/
def positiveRunningTotals (downloaded : Nat) : List Nat → List Nat
  | [] => []
  | n :: rest =>
    if 0 < n then (downloaded + n) :: positiveRunningTotals (downloaded + n) rest
    else positiveRunningTotals downloaded rest

/-! ## Installation latch (`downloader.ensureBinariesInstalled`)

The package-level state is `installAttempted : Bool` (initially `false`)
guarded by `installMutex`.  `ensureBinariesInstalled` locks the mutex, returns
immediately when the flag is already set, otherwise sets it and — after
unlocking — runs the decision procedure.  The mutex makes the check-and-set
atomic, so any concurrent execution is equivalent to some sequential order of
the calls; `ensureSeq` folds such an order.  `InstallEnv` snapshots the
environment reads the decision procedure performs; every `return` statement in
the Go function (including `autoInstallBinaries`, which swallows installer
errors after logging them) is `return nil`, hence `err := none` on every
path. -/

structure InstallEnv where
  noAutoInstall : Bool
  ytdlpOk : Bool
  ffmpegOk : Bool
  ytdlpSystemOk : Bool
  ffmpegSystemOk : Bool
  cliMarker : Bool
  deriving Repr, DecidableEq

/-- The body of `ensureBinariesInstalled` after the latch, together with
`autoInstallBinaries`: which installer functions get invoked.
`env.ytdlpOk`/`env.ffmpegOk` are `checkBinaryExists` on the current
`YTDLPPath`/`FFMPEGPath`; the `System` fields are `checkBinaryExists` on the
bare names, and `cliMarker` is `wasInstalledViaCLI()`. -/
def installDecision (env : InstallEnv) : List String :=
  if env.noAutoInstall then []
  else if env.ytdlpOk && env.ffmpegOk then []
  else if env.ytdlpSystemOk && env.ffmpegSystemOk then []
  else if env.cliMarker then []
  else (if !env.ytdlpOk then ["yt-dlp"] else []) ++ (if !env.ffmpegOk then ["ffmpeg"] else [])

structure EnsureCall where
  ranDecision : Bool
  installs : List String
  err : Option String
  deriving Repr, DecidableEq

def ensureStep (env : InstallEnv) (attempted : Bool) : Bool × EnsureCall :=
  if attempted then (true, ⟨false, [], none⟩)
  else (true, ⟨true, installDecision env, none⟩)

def ensureSeq (attempted : Bool) : List InstallEnv → Bool × List EnsureCall
  | [] => (attempted, [])
  | env :: rest =>
    let s := ensureStep env attempted
    let r := ensureSeq s.1 rest
    (r.1, s.2 :: r.2)

/-! ## Subprocess output streaming (`downloader.streamCommand`)

`streamCommand` drains stdout and stderr concurrently.  The stdout drain
scans lines; when `progressCb != nil` and the line contains `"%"` or `"ETA"`,
it invokes the callback with `DownloadProgress{Stage: stage}` (all other
fields keep their Go zero values).  The stderr drain reads lines and discards
them, producing no events.  `streamEvents` lists the callback invocations of
one run, in order. -/

structure DownloadProgress where
  bytesDownloaded : Int := 0
  totalBytes : Int := 0
  percentage : ℚ := 0
  stage : String := ""
  deriving Repr, DecidableEq

def progressLine (line : String) : Bool :=
  strContains line "%" || strContains line "ETA"

def streamEvents (hasObserver : Bool) (stage : String) : List String → List DownloadProgress
  | [] => []
  | line :: rest =>
    (if hasObserver && progressLine line then [{ stage := stage }] else []) ++
      streamEvents hasObserver stage rest

/-! ## Media pipeline (`downloader.DownloadVideoToDirWithProgress` /
`downloader.DownloadAudioToDirWithProgress`)

The filesystem is the list of existing file paths.  `FetchOracle` collects the
externally determined outcomes of one job: whether `os.MkdirAll` succeeds,
whether each `streamCommand` run returns nil, the extension the fetch tool
chooses for its single output file, the stdout lines of the two subprocesses,
`time.Now().UnixNano()` and the working directory used by `filepath.Abs`.
`RunResult` records the returned value, the final filesystem, how many times
each subprocess was launched, which file the extension probe discovered, and
the progress events delivered to the observer.

`ensureBinariesInstalled()` returns nil on every path (see `ensureStep`), so
the error wrap at the top of both Go functions is dead and is not modelled as
a failure branch. -/

inductive PipeError where
  | dirCreateFailed (msg : String)
  | subprocessFailed (msg : String)
  | outputNotFound (msg : String)
  deriving Repr, DecidableEq

structure FetchOracle where
  mkdirOk : Bool
  fetchOk : Bool
  fetchedExt : String
  fetchLines : List String
  convertOk : Bool
  convertLines : List String
  now : Nat
  cwd : String
  deriving Repr, DecidableEq

deriving instance DecidableEq for Except

structure RunResult where
  result : Except PipeError String
  fs : List String
  fetchCalls : Nat
  convertCalls : Nat
  discovered : Option String
  events : List DownloadProgress
  deriving Repr, DecidableEq

def removePath (fs : List String) (p : String) : List String :=
  fs.filter (fun q => q != p)

def existsFile (fs : List String) (p : String) : Bool :=
  fs.contains p

def extPlaceholder : String := "%(ext)s"

/-- Go: `possibleExtensions := []string{"mkv", "mp4", "webm", "avi", "mov", "flv"}`. -/
def possibleVideoExtensions : List String := ["mkv", "mp4", "webm", "avi", "mov", "flv"]

/-- Go: `possibleExtensions := []string{"webm", "m4a", "opus", "ogg", "mp3", "aac"}`. -/
def possibleAudioExtensions : List String := ["webm", "m4a", "opus", "ogg", "mp3", "aac"]

/-- The extension-probing loop: substitute each candidate extension into the
template in order and return the first candidate path that exists
(`os.Stat(candidate) == nil`). -/
def discoverFile (temp : String) (exts : List String) (fs : List String) : Option String :=
  match exts with
  | [] => none
  | ext :: rest =>
    let candidate := replaceFirst temp extPlaceholder ext
    if existsFile fs candidate then some candidate else discoverFile temp rest fs

/-- Go: `fmt.Sprintf("video_%d.%%(ext)s", time.Now().UnixNano())`, joined under
`outputDir` when one was given. -/
def videoTemp (outputDir : String) (now : Nat) : String :=
  let filename := "video_" ++ toString now ++ ".%(ext)s"
  if outputDir ≠ "" then joinPath outputDir filename else filename

/-- Go: `fmt.Sprintf("audio_%d.%%(ext)s", time.Now().UnixNano())`, joined under
`outputDir` when one was given. -/
def audioTemp (outputDir : String) (now : Nat) : String :=
  let filename := "audio_" ++ toString now ++ ".%(ext)s"
  if outputDir ≠ "" then joinPath outputDir filename else filename

def DownloadVideoToDirWithProgress (format resolution codec outputDir : String)
    (hasObserver : Bool) (o : FetchOracle) (fs : List String) : RunResult :=
  let format := if format = "" then "mp4" else format
  let _resolution := if resolution = "" then "720" else resolution
  let _codec := if codec = "" then "avc1" else codec
  if outputDir ≠ "" ∧ ¬ o.mkdirOk then
    ⟨.error (.dirCreateFailed "failed to create output directory"), fs, 0, 0, none, []⟩
  else
    let temp := videoTemp outputDir o.now
    let startEvents : List DownloadProgress :=
      if hasObserver then [{ stage := "Downloading video" }] else []
    let fetchEvents := streamEvents hasObserver "downloading" o.fetchLines
    if ¬ o.fetchOk then
      ⟨.error (.subprocessFailed "yt-dlp video download failed"), fs, 1, 0, none,
        startEvents ++ fetchEvents⟩
    else
      let fs₁ := replaceFirst temp extPlaceholder o.fetchedExt :: fs
      match discoverFile temp possibleVideoExtensions fs₁ with
      | none =>
        ⟨.error (.outputNotFound "could not find downloaded video file"), fs₁, 1, 0, none,
          startEvents ++ fetchEvents⟩
      | some downloaded =>
        let finalOutput := replaceFirst temp extPlaceholder format
        if downloaded ≠ finalOutput then
          let convStart : List DownloadProgress :=
            if hasObserver then [{ stage := "Converting video format" }] else []
          let convEvents := streamEvents hasObserver "converting" o.convertLines
          if ¬ o.convertOk then
            ⟨.error (.subprocessFailed "ffmpeg conversion failed"), fs₁, 1, 1, some downloaded,
              startEvents ++ fetchEvents ++ convStart ++ convEvents⟩
          else
            let doneEvents : List DownloadProgress :=
              if hasObserver then [{ stage := "Completed", percentage := 100 }] else []
            ⟨.ok (absPath o.cwd finalOutput), removePath (finalOutput :: fs₁) downloaded, 1, 1,
              some downloaded, startEvents ++ fetchEvents ++ convStart ++ convEvents ++ doneEvents⟩
        else
          let doneEvents : List DownloadProgress :=
            if hasObserver then [{ stage := "Completed", percentage := 100 }] else []
          ⟨.ok (absPath o.cwd downloaded), fs₁, 1, 0, some downloaded,
            startEvents ++ fetchEvents ++ doneEvents⟩

def DownloadAudioToDirWithProgress (outputFormat codec bitrate outputDir : String)
    (hasObserver : Bool) (o : FetchOracle) (fs : List String) : RunResult :=
  let outputFormat := if outputFormat = "" then "mp3" else outputFormat
  let _codec := if codec = "" then "libmp3lame" else codec
  let _bitrate := if bitrate = "" then "128k" else bitrate
  if outputDir ≠ "" ∧ ¬ o.mkdirOk then
    ⟨.error (.dirCreateFailed "failed to create output directory"), fs, 0, 0, none, []⟩
  else
    let temp := audioTemp outputDir o.now
    let startEvents : List DownloadProgress :=
      if hasObserver then [{ stage := "Downloading audio" }] else []
    let fetchEvents := streamEvents hasObserver "downloading" o.fetchLines
    if ¬ o.fetchOk then
      ⟨.error (.subprocessFailed "yt-dlp audio fetch failed"), fs, 1, 0, none,
        startEvents ++ fetchEvents⟩
    else
      let fs₁ := replaceFirst temp extPlaceholder o.fetchedExt :: fs
      match discoverFile temp possibleAudioExtensions fs₁ with
      | none =>
        ⟨.error (.outputNotFound "could not find downloaded audio file"), fs₁, 1, 0, none,
          startEvents ++ fetchEvents⟩
      | some original =>
        let output := replaceFirst temp extPlaceholder outputFormat
        let convStart : List DownloadProgress :=
          if hasObserver then [{ stage := "Converting audio format" }] else []
        let convEvents := streamEvents hasObserver "converting" o.convertLines
        if ¬ o.convertOk then
          ⟨.error (.subprocessFailed "ffmpeg conversion failed"), fs₁, 1, 1, some original,
            startEvents ++ fetchEvents ++ convStart ++ convEvents⟩
        else
          let doneEvents : List DownloadProgress :=
            if hasObserver then [{ stage := "Completed", percentage := 100 }] else []
          ⟨.ok (absPath o.cwd output), removePath (output :: fs₁) original, 1, 1,
            some original, startEvents ++ fetchEvents ++ convStart ++ convEvents ++ doneEvents⟩

/-! ## Helper lemmas -/

theorem existsFile_iff (fs : List String) (p : String) : existsFile fs p = true ↔ p ∈ fs := by
  simp [existsFile]

theorem mem_removePath (fs : List String) (p x : String) :
    x ∈ removePath fs p ↔ x ∈ fs ∧ x ≠ p := by
  simp [removePath]

theorem discoverFile_mem (temp : String) (exts fs : List String) (c : String)
    (h : discoverFile temp exts fs = some c) : c ∈ fs := by
  induction exts with
  | nil => simp [discoverFile] at h
  | cons e rest ih =>
    rw [discoverFile] at h
    by_cases hc : existsFile fs (replaceFirst temp extPlaceholder e) = true
    · rw [if_pos hc] at h
      cases h
      exact (existsFile_iff fs _).mp hc
    · rw [if_neg hc] at h
      exact ih h

theorem discoverFile_eq_find (temp : String) (exts fs : List String) :
    discoverFile temp exts fs =
      (exts.find? (fun e => existsFile fs (replaceFirst temp extPlaceholder e))).map
        (replaceFirst temp extPlaceholder) := by
  induction exts with
  | nil => simp [discoverFile]
  | cons e rest ih =>
    rw [discoverFile, List.find?]
    by_cases hc : existsFile fs (replaceFirst temp extPlaceholder e) = true
    · rw [if_pos hc, hc]
      rfl
    · rw [if_neg hc, Bool.of_not_eq_true hc]
      exact ih

theorem discoverFile_fresh (temp : String) (exts fs : List String) (ext : String)
    (hmem : ext ∈ exts)
    (h0 : ∀ e ∈ exts, replaceFirst temp extPlaceholder e ∉ fs) :
    discoverFile temp exts (replaceFirst temp extPlaceholder ext :: fs) =
      some (replaceFirst temp extPlaceholder ext) := by
  induction exts with
  | nil => cases hmem
  | cons e rest ih =>
    rw [discoverFile]
    by_cases he : replaceFirst temp extPlaceholder e = replaceFirst temp extPlaceholder ext
    · rw [if_pos, he]
      rw [existsFile_iff, he]
      exact List.mem_cons_self _ _
    · rw [if_neg, ih]
      · rcases List.mem_cons.mp hmem with h | h
        · exact absurd (by rw [h]) he
        · exact h
      · exact fun x hx => h0 x (List.mem_cons_of_mem e hx)
      · rw [existsFile_iff]
        intro hc
        rcases List.mem_cons.mp hc with h | h
        · exact he h
        · exact h0 e (List.mem_cons_self e rest) h

theorem ensureSeq_latched (envs : List InstallEnv) :
    ensureSeq true envs = (true, envs.map (fun _ => ⟨false, [], none⟩)) := by
  induction envs with
  | nil => rfl
  | cons e rest ih => simp [ensureSeq, ensureStep, ih]

/-! ## Claim theorems -/

/-- C2: within one process, for every serialized order of any number of calls
to `ensureBinariesInstalled` (the mutex makes the check-and-set of
`installAttempted` atomic, so every concurrent execution serializes), the
decision procedure runs exactly in the first call; the latch ends `true` and
every later call reports `ranDecision = false` with no installer invocation,
so the decision procedure executes at most once overall. -/
theorem install_latch_at_most_once (env : InstallEnv) (rest : List InstallEnv) :
    ensureSeq false (env :: rest) =
      (true, ⟨true, installDecision env, none⟩ :: rest.map (fun _ => ⟨false, [], none⟩)) ∧
    ∀ envs : List InstallEnv,
      ((ensureSeq false envs).2.countP (fun c => c.ranDecision)).le 1 := by
  constructor
  · simp [ensureSeq, ensureStep, ensureSeq_latched]
  · intro envs
    cases envs with
    | nil => simp [ensureSeq]
    | cons e es =>
      simp [ensureSeq, ensureStep, ensureSeq_latched, List.countP_map, List.countP_cons]

/-- C7: on the first call into `ensureBinariesInstalled` with
`GOSTREAMPULLER_NO_AUTO_INSTALL=1` set, the decision procedure runs but
invokes no installer (so nothing is downloaded), regardless of whether the
tools are present, and the call returns nil. -/
theorem optOut_first_call_no_install (env : InstallEnv) (h : env.noAutoInstall = true) :
    ensureStep env false = (true, ⟨true, [], none⟩) := by
  simp [ensureStep, installDecision, h]

/-- Witness for C7 at an environment where both tools are absent everywhere. -/
theorem optOut_first_call_no_install_witness :
    ensureStep ⟨true, false, false, false, false, false⟩ false = (true, ⟨true, [], none⟩) :=
  optOut_first_call_no_install ⟨true, false, false, false, false, false⟩ rfl

/-- C8: with a non-nil observer, the stdout drain of `streamCommand` emits one
coarse event per line containing `"%"` or `"ETA"` — and only for those lines —
each event being `DownloadProgress{Stage: stage}` with zero byte counts and
zero percentage; with a nil observer nothing is emitted. -/
theorem streamEvents_exactly_matching_lines (stage : String) (stdoutLines : List String) :
    streamEvents true stage stdoutLines =
      (stdoutLines.filter progressLine).map
        (fun _ => ⟨0, 0, 0, stage⟩) ∧
    streamEvents false stage stdoutLines = [] := by
  constructor
  · induction stdoutLines with
    | nil => rfl
    | cons line rest ih =>
      rw [streamEvents, List.filter]
      by_cases hl : progressLine line = true
      · simp [hl, ih]
      · simp [Bool.of_not_eq_true hl, ih]
  · induction stdoutLines with
    | nil => rfl
    | cons line rest ih => simp [streamEvents, ih]

/-- C9 auxiliary: with a positive content length, the reports are exactly the
running byte totals mapped through the percentage formula. -/
theorem downloadReportsAux_pos (total : Int) (ht : 0 < total) (chunks : List Nat) :
    ∀ downloaded : Nat,
      downloadReportsAux true total downloaded chunks =
        (positiveRunningTotals downloaded chunks).map
          (fun d => ⟨d, total, (d : ℚ) / (total : ℚ) * 100⟩) := by
  induction chunks with
  | nil => intro d; rfl
  | cons n rest ih =>
    intro d
    rw [downloadReportsAux, positiveRunningTotals]
    by_cases hn : 0 < n
    · rw [if_pos hn, if_pos hn, if_pos ⟨rfl, ht⟩, List.map_cons]
      simp [ih]
    · rw [if_neg hn, if_neg hn]
      exact ih d

/-- C9 auxiliary: with a non-positive content length (the Go value is `-1`
when the server sends no Content-Length) no report is ever produced. -/
theorem downloadReportsAux_nonpos (total : Int) (ht : ¬ 0 < total) (chunks : List Nat) :
    ∀ downloaded : Nat, downloadReportsAux true total downloaded chunks = [] := by
  induction chunks with
  | nil => intro d; rfl
  | cons n rest ih =>
    intro d
    rw [downloadReportsAux]
    by_cases hn : 0 < n
    · rw [if_pos hn, if_neg (fun h => ht h.2)]
      exact ih _
    · rw [if_neg hn]
      exact ih d

/-- C9: during `downloadFile` with a non-nil observer, a percentage report is
emitted exactly after each chunk that delivered bytes and only when the
content length is positive, its percentage being
`bytesDownloaded/totalBytes*100` for the bytes written so far; with an unknown
content length no percentage is reported at all. -/
theorem downloadFileReports_percentage (total : Int) (chunks : List Nat) :
    (0 < total →
      downloadFileReports true total chunks =
        (positiveRunningTotals 0 chunks).map
          (fun d => ⟨d, total, (d : ℚ) / (total : ℚ) * 100⟩)) ∧
    (¬ 0 < total → downloadFileReports true total chunks = []) :=
  ⟨fun ht => downloadReportsAux_pos total ht chunks 0,
   fun ht => downloadReportsAux_nonpos total ht chunks 0⟩

/-- Witness for C9: a 200-byte download read in chunks of 100, 0 and 50 bytes
reports 50% and then 75%, and the same chunks with unknown length (-1) report
nothing. -/
theorem downloadFileReports_percentage_witness :
    downloadFileReports true 200 [100, 0, 50] =
      [⟨100, 200, 50⟩, ⟨150, 200, 75⟩] ∧
    downloadFileReports true (-1) [100, 50] = [] := by
  constructor
  · rw [(downloadFileReports_percentage 200 [100, 0, 50]).1 (by norm_num)]
    norm_num [positiveRunningTotals]
  · exact (downloadFileReports_percentage (-1) [100, 50]).2 (by norm_num)

/-- Counterexample to C1 as stated: an audio job requesting format `"webm"`
whose fetch produces `audio_0.webm` (so the requested format equals the
fetched extension) still launches the transcode subprocess once
(`convertCalls = 1`), and — the conversion succeeding — even deletes the file
on return.  The claim requires no transcode subprocess for both pipelines. -/
theorem audio_pipeline_transcodes_matching_format :
    DownloadAudioToDirWithProgress "webm" "" "" "" false
        ⟨true, true, "webm", [], true, [], 0, "/cwd"⟩ [] =
      ⟨.ok "/cwd/audio_0.webm", [], 1, 1, some "audio_0.webm", []⟩ := by decide

/-- C1 (amended): in the video pipeline, when the requested (defaulted) format
equals the extension chosen by the fetch tool, no transcode subprocess runs
(`convertCalls = 0`) and the discovered file itself (made absolute) is the
returned result; the audio pipeline instead launches the transcode subprocess
on every job whose fetch and discovery succeed, even when the formats already
match. -/
theorem matching_format_transcode_behavior :
    (∀ (format resolution codec outputDir : String) (hasObserver : Bool)
        (o : FetchOracle) (fs : List String),
      o.mkdirOk = true → o.fetchOk = true →
      o.fetchedExt = (if format = "" then "mp4" else format) →
      ((if format = "" then "mp4" else format) ∈ possibleVideoExtensions) →
      (∀ e ∈ possibleVideoExtensions,
          replaceFirst (videoTemp outputDir o.now) extPlaceholder e ∉ fs) →
      DownloadVideoToDirWithProgress format resolution codec outputDir hasObserver o fs =
        ⟨.ok (absPath o.cwd (replaceFirst (videoTemp outputDir o.now) extPlaceholder o.fetchedExt)),
         replaceFirst (videoTemp outputDir o.now) extPlaceholder o.fetchedExt :: fs, 1, 0,
         some (replaceFirst (videoTemp outputDir o.now) extPlaceholder o.fetchedExt),
         (if hasObserver then [⟨0, 0, 0, "Downloading video"⟩] else []) ++
           streamEvents hasObserver "downloading" o.fetchLines ++
           (if hasObserver then [⟨0, 0, 100, "Completed"⟩] else [])⟩) ∧
    (∀ (outputFormat codec bitrate outputDir : String) (hasObserver : Bool)
        (o : FetchOracle) (fs : List String) (original : String),
      o.mkdirOk = true → o.fetchOk = true →
      discoverFile (audioTemp outputDir o.now) possibleAudioExtensions
          (replaceFirst (audioTemp outputDir o.now) extPlaceholder o.fetchedExt :: fs) =
        some original →
      (DownloadAudioToDirWithProgress outputFormat codec bitrate outputDir
          hasObserver o fs).convertCalls = 1) := by
  constructor
  · intro format resolution codec outputDir hasObserver o fs hmk hf hext hmem h0
    simp only [DownloadVideoToDirWithProgress]
    rw [if_neg (by simp [hmk]), if_neg (by simp [hf]),
      discoverFile_fresh _ _ _ _ (by rw [hext]; exact hmem) h0]
    rw [hext]
    simp
  · intro outputFormat codec bitrate outputDir hasObserver o fs original hmk hf hdisc
    simp only [DownloadAudioToDirWithProgress]
    rw [if_neg (by simp [hmk]), if_neg (by simp [hf]), hdisc]
    by_cases hc : o.convertOk <;> simp [hc]

/-- Witness for C1 (amended): a video job requesting `"mp4"` whose fetch
produces `video_5.mp4` invokes no transcode and returns the discovered file
made absolute; an audio job requesting `"mp3"` whose fetch produces
`audio_2.m4a` launches exactly one transcode. -/
theorem matching_format_transcode_behavior_witness :
    DownloadVideoToDirWithProgress "mp4" "" "" "" false
        ⟨true, true, "mp4", [], true, [], 5, "/w"⟩ [] =
      ⟨.ok "/w/video_5.mp4", ["video_5.mp4"], 1, 0, some "video_5.mp4", []⟩ ∧
    (DownloadAudioToDirWithProgress "mp3" "" "" "" false
        ⟨true, true, "m4a", [], true, [], 2, "/w"⟩ []).convertCalls = 1 := by
  constructor
  · have h := matching_format_transcode_behavior.1 "mp4" "" "" "" false
      ⟨true, true, "mp4", [], true, [], 5, "/w"⟩ [] rfl rfl (by decide) (by decide) (by simp)
    rw [h]
    decide
  · exact matching_format_transcode_behavior.2 "mp3" "" "" "" false
      ⟨true, true, "m4a", [], true, [], 2, "/w"⟩ [] "audio_2.m4a" rfl rfl (by decide)

/-- C3: when the transcode subprocess exits non-zero, both pipelines return
the fatal error `subprocessFailed "ffmpeg conversion failed"` — distinct from
the fetch-stage errors `"yt-dlp video download failed"` /
`"yt-dlp audio fetch failed"` — the filesystem is unchanged since the fetch,
and in particular the intermediate fetched file is still present. -/
theorem transcode_failure_keeps_intermediate :
    (∀ (format resolution codec outputDir : String) (hasObserver : Bool)
        (o : FetchOracle) (fs : List String) (c : String),
      o.mkdirOk = true → o.fetchOk = true → o.convertOk = false →
      discoverFile (videoTemp outputDir o.now) possibleVideoExtensions
          (replaceFirst (videoTemp outputDir o.now) extPlaceholder o.fetchedExt :: fs) =
        some c →
      c ≠ replaceFirst (videoTemp outputDir o.now) extPlaceholder
          (if format = "" then "mp4" else format) →
      (DownloadVideoToDirWithProgress format resolution codec outputDir hasObserver o fs).result =
          .error (.subprocessFailed "ffmpeg conversion failed") ∧
        (DownloadVideoToDirWithProgress format resolution codec outputDir hasObserver o fs).fs =
          replaceFirst (videoTemp outputDir o.now) extPlaceholder o.fetchedExt :: fs ∧
        c ∈ (DownloadVideoToDirWithProgress format resolution codec outputDir hasObserver o fs).fs) ∧
    (∀ (outputFormat codec bitrate outputDir : String) (hasObserver : Bool)
        (o : FetchOracle) (fs : List String) (c : String),
      o.mkdirOk = true → o.fetchOk = true → o.convertOk = false →
      discoverFile (audioTemp outputDir o.now) possibleAudioExtensions
          (replaceFirst (audioTemp outputDir o.now) extPlaceholder o.fetchedExt :: fs) =
        some c →
      (DownloadAudioToDirWithProgress outputFormat codec bitrate outputDir hasObserver o fs).result =
          .error (.subprocessFailed "ffmpeg conversion failed") ∧
        (DownloadAudioToDirWithProgress outputFormat codec bitrate outputDir hasObserver o fs).fs =
          replaceFirst (audioTemp outputDir o.now) extPlaceholder o.fetchedExt :: fs ∧
        c ∈ (DownloadAudioToDirWithProgress outputFormat codec bitrate outputDir hasObserver o fs).fs) ∧
    PipeError.subprocessFailed "ffmpeg conversion failed" ≠
      PipeError.subprocessFailed "yt-dlp video download failed" ∧
    PipeError.subprocessFailed "ffmpeg conversion failed" ≠
      PipeError.subprocessFailed "yt-dlp audio fetch failed" := by
  refine ⟨?_, ?_, by decide, by decide⟩
  · intro format resolution codec outputDir hasObserver o fs c hmk hf hcv hdisc hne
    simp only [DownloadVideoToDirWithProgress]
    rw [if_neg (by simp [hmk]), if_neg (by simp [hf]), hdisc]
    dsimp only
    rw [if_pos hne, if_pos (by simp [hcv])]
    exact ⟨rfl, rfl, discoverFile_mem _ _ _ _ hdisc⟩
  · intro outputFormat codec bitrate outputDir hasObserver o fs c hmk hf hcv hdisc
    simp only [DownloadAudioToDirWithProgress]
    rw [if_neg (by simp [hmk]), if_neg (by simp [hf]), hdisc]
    dsimp only
    rw [if_pos (by simp [hcv])]
    exact ⟨rfl, rfl, discoverFile_mem _ _ _ _ hdisc⟩

/-- Witness for C3: a video job requesting `"mp4"` whose fetch produced
`video_3.webm` and whose ffmpeg run fails reports the convert-stage error and
leaves `video_3.webm` on disk. -/
theorem transcode_failure_keeps_intermediate_witness :
    (DownloadVideoToDirWithProgress "mp4" "" "" "" false
        ⟨true, true, "webm", [], false, [], 3, "/w"⟩ []).result =
      .error (.subprocessFailed "ffmpeg conversion failed") ∧
    "video_3.webm" ∈ (DownloadVideoToDirWithProgress "mp4" "" "" "" false
        ⟨true, true, "webm", [], false, [], 3, "/w"⟩ []).fs := by
  have h := transcode_failure_keeps_intermediate.1 "mp4" "" "" "" false
    ⟨true, true, "webm", [], false, [], 3, "/w"⟩ [] "video_3.webm" rfl rfl rfl
    (by decide) (by decide)
  exact ⟨h.1, h.2.2⟩

/-- Counterexample to C4 as stated: an audio job requesting `"webm"` whose
fetch also produces `audio_1.webm` runs the transcode (which here succeeds and
writes to the same templated path), and after the call returns the final
filesystem is empty — the file with the requested extension no longer exists,
because the `defer os.Remove(original)` deletes the very path the conversion
wrote.  The claim requires the final file to exist whenever the transcode step
runs and succeeds. -/
theorem audio_success_matching_format_deletes_output :
    DownloadAudioToDirWithProgress "webm" "" "" "" false
        ⟨true, true, "webm", [], true, [], 1, "/cwd"⟩ [] =
      ⟨.ok "/cwd/audio_1.webm", [], 1, 1, some "audio_1.webm", []⟩ := by decide

/-- C4 (amended): whenever the transcode step runs and succeeds and the final
path differs from the intermediate path — automatic in the video pipeline,
where the transcode only runs under that guard, but a genuine proviso in the
audio pipeline — the transcode tool is invoked exactly once and afterwards the
final file with the requested extension exists while the intermediate fetched
file no longer does. -/
theorem transcode_success_cleanup :
    (∀ (format resolution codec outputDir : String) (hasObserver : Bool)
        (o : FetchOracle) (fs : List String) (c : String),
      o.mkdirOk = true → o.fetchOk = true → o.convertOk = true →
      discoverFile (videoTemp outputDir o.now) possibleVideoExtensions
          (replaceFirst (videoTemp outputDir o.now) extPlaceholder o.fetchedExt :: fs) =
        some c →
      c ≠ replaceFirst (videoTemp outputDir o.now) extPlaceholder
          (if format = "" then "mp4" else format) →
      (DownloadVideoToDirWithProgress format resolution codec outputDir
          hasObserver o fs).convertCalls = 1 ∧
        replaceFirst (videoTemp outputDir o.now) extPlaceholder
            (if format = "" then "mp4" else format) ∈
          (DownloadVideoToDirWithProgress format resolution codec outputDir hasObserver o fs).fs ∧
        c ∉ (DownloadVideoToDirWithProgress format resolution codec outputDir hasObserver o fs).fs ∧
        (DownloadVideoToDirWithProgress format resolution codec outputDir hasObserver o fs).result =
          .ok (absPath o.cwd (replaceFirst (videoTemp outputDir o.now) extPlaceholder
            (if format = "" then "mp4" else format)))) ∧
    (∀ (outputFormat codec bitrate outputDir : String) (hasObserver : Bool)
        (o : FetchOracle) (fs : List String) (c : String),
      o.mkdirOk = true → o.fetchOk = true → o.convertOk = true →
      discoverFile (audioTemp outputDir o.now) possibleAudioExtensions
          (replaceFirst (audioTemp outputDir o.now) extPlaceholder o.fetchedExt :: fs) =
        some c →
      c ≠ replaceFirst (audioTemp outputDir o.now) extPlaceholder
          (if outputFormat = "" then "mp3" else outputFormat) →
      (DownloadAudioToDirWithProgress outputFormat codec bitrate outputDir
          hasObserver o fs).convertCalls = 1 ∧
        replaceFirst (audioTemp outputDir o.now) extPlaceholder
            (if outputFormat = "" then "mp3" else outputFormat) ∈
          (DownloadAudioToDirWithProgress outputFormat codec bitrate outputDir hasObserver o fs).fs ∧
        c ∉ (DownloadAudioToDirWithProgress outputFormat codec bitrate outputDir hasObserver o fs).fs ∧
        (DownloadAudioToDirWithProgress outputFormat codec bitrate outputDir hasObserver o fs).result =
          .ok (absPath o.cwd (replaceFirst (audioTemp outputDir o.now) extPlaceholder
            (if outputFormat = "" then "mp3" else outputFormat)))) := by
  constructor
  · intro format resolution codec outputDir hasObserver o fs c hmk hf hcv hdisc hne
    simp only [DownloadVideoToDirWithProgress]
    rw [if_neg (by simp [hmk]), if_neg (by simp [hf]), hdisc]
    dsimp only
    rw [if_pos hne, if_neg (by simp [hcv])]
    refine ⟨rfl, ?_, ?_, rfl⟩
    · rw [mem_removePath]
      exact ⟨List.mem_cons_self _ _, Ne.symm hne⟩
    · rw [mem_removePath]
      exact fun h => h.2 rfl
  · intro outputFormat codec bitrate outputDir hasObserver o fs c hmk hf hcv hdisc hne
    simp only [DownloadAudioToDirWithProgress]
    rw [if_neg (by simp [hmk]), if_neg (by simp [hf]), hdisc]
    dsimp only
    rw [if_neg (by simp [hcv])]
    refine ⟨rfl, ?_, ?_, rfl⟩
    · rw [mem_removePath]
      exact ⟨List.mem_cons_self _ _, Ne.symm hne⟩
    · rw [mem_removePath]
      exact fun h => h.2 rfl

/-- Witness for C4 (amended): a video job requesting `"mp4"` whose fetch
produced `video_4.webm` converts once; afterwards `video_4.mp4` exists and
`video_4.webm` is gone. -/
theorem transcode_success_cleanup_witness :
    (DownloadVideoToDirWithProgress "mp4" "" "" "" false
        ⟨true, true, "webm", [], true, [], 4, "/w"⟩ []).convertCalls = 1 ∧
    "video_4.mp4" ∈ (DownloadVideoToDirWithProgress "mp4" "" "" "" false
        ⟨true, true, "webm", [], true, [], 4, "/w"⟩ []).fs ∧
    "video_4.webm" ∉ (DownloadVideoToDirWithProgress "mp4" "" "" "" false
        ⟨true, true, "webm", [], true, [], 4, "/w"⟩ []).fs := by
  have h := transcode_success_cleanup.1 "mp4" "" "" "" false
    ⟨true, true, "webm", [], true, [], 4, "/w"⟩ [] "video_4.webm" rfl rfl rfl
    (by decide) (by decide)
  exact ⟨h.1, h.2.1, h.2.2.1⟩

/-- C6: after a successful fetch, both pipelines discover the produced file by
substituting each candidate extension of the fixed ordered list into the
template and taking the first candidate that exists (`List.find?` over the
ordered list); when no candidate exists the pipeline fails with the
output-not-found error instead of returning a path. -/
theorem extension_probe_discovery :
    (∀ (format resolution codec outputDir : String) (hasObserver : Bool)
        (o : FetchOracle) (fs : List String),
      o.mkdirOk = true → o.fetchOk = true →
      (DownloadVideoToDirWithProgress format resolution codec outputDir hasObserver o fs).discovered =
        discoverFile (videoTemp outputDir o.now) possibleVideoExtensions
          (replaceFirst (videoTemp outputDir o.now) extPlaceholder o.fetchedExt :: fs) ∧
      discoverFile (videoTemp outputDir o.now) possibleVideoExtensions
          (replaceFirst (videoTemp outputDir o.now) extPlaceholder o.fetchedExt :: fs) =
        (possibleVideoExtensions.find? (fun e =>
            existsFile (replaceFirst (videoTemp outputDir o.now) extPlaceholder o.fetchedExt :: fs)
              (replaceFirst (videoTemp outputDir o.now) extPlaceholder e))).map
          (replaceFirst (videoTemp outputDir o.now) extPlaceholder) ∧
      (discoverFile (videoTemp outputDir o.now) possibleVideoExtensions
          (replaceFirst (videoTemp outputDir o.now) extPlaceholder o.fetchedExt :: fs) = none →
        (DownloadVideoToDirWithProgress format resolution codec outputDir hasObserver o fs).result =
          .error (.outputNotFound "could not find downloaded video file"))) ∧
    (∀ (outputFormat codec bitrate outputDir : String) (hasObserver : Bool)
        (o : FetchOracle) (fs : List String),
      o.mkdirOk = true → o.fetchOk = true →
      (DownloadAudioToDirWithProgress outputFormat codec bitrate outputDir hasObserver o fs).discovered =
        discoverFile (audioTemp outputDir o.now) possibleAudioExtensions
          (replaceFirst (audioTemp outputDir o.now) extPlaceholder o.fetchedExt :: fs) ∧
      discoverFile (audioTemp outputDir o.now) possibleAudioExtensions
          (replaceFirst (audioTemp outputDir o.now) extPlaceholder o.fetchedExt :: fs) =
        (possibleAudioExtensions.find? (fun e =>
            existsFile (replaceFirst (audioTemp outputDir o.now) extPlaceholder o.fetchedExt :: fs)
              (replaceFirst (audioTemp outputDir o.now) extPlaceholder e))).map
          (replaceFirst (audioTemp outputDir o.now) extPlaceholder) ∧
      (discoverFile (audioTemp outputDir o.now) possibleAudioExtensions
          (replaceFirst (audioTemp outputDir o.now) extPlaceholder o.fetchedExt :: fs) = none →
        (DownloadAudioToDirWithProgress outputFormat codec bitrate outputDir hasObserver o fs).result =
          .error (.outputNotFound "could not find downloaded audio file"))) := by
  constructor
  · intro format resolution codec outputDir hasObserver o fs hmk hf
    refine ⟨?_, discoverFile_eq_find _ _ _, ?_⟩
    · simp only [DownloadVideoToDirWithProgress]
      rw [if_neg (by simp [hmk]), if_neg (by simp [hf])]
      cases hd : discoverFile (videoTemp outputDir o.now) possibleVideoExtensions
          (replaceFirst (videoTemp outputDir o.now) extPlaceholder o.fetchedExt :: fs) with
      | none => rfl
      | some c =>
        dsimp only
        by_cases hg : c ≠ replaceFirst (videoTemp outputDir o.now) extPlaceholder
            (if format = "" then "mp4" else format)
        · rw [if_pos hg]
          by_cases hcv : o.convertOk = true
          · rw [if_neg (by simp [hcv])]
          · rw [if_pos (by simp [hcv])]
        · rw [if_neg hg]
    · intro hd
      simp only [DownloadVideoToDirWithProgress]
      rw [if_neg (by simp [hmk]), if_neg (by simp [hf]), hd]
  · intro outputFormat codec bitrate outputDir hasObserver o fs hmk hf
    refine ⟨?_, discoverFile_eq_find _ _ _, ?_⟩
    · simp only [DownloadAudioToDirWithProgress]
      rw [if_neg (by simp [hmk]), if_neg (by simp [hf])]
      cases hd : discoverFile (audioTemp outputDir o.now) possibleAudioExtensions
          (replaceFirst (audioTemp outputDir o.now) extPlaceholder o.fetchedExt :: fs) with
      | none => rfl
      | some c =>
        dsimp only
        by_cases hcv : o.convertOk = true
        · rw [if_neg (by simp [hcv])]
        · rw [if_pos (by simp [hcv])]
    · intro hd
      simp only [DownloadAudioToDirWithProgress]
      rw [if_neg (by simp [hmk]), if_neg (by simp [hf]), hd]

/-- Witness for C6: a video job whose fetch produced the unprobed extension
`video_6.xyz` discovers nothing and fails with the output-not-found error. -/
theorem extension_probe_discovery_witness :
    (DownloadVideoToDirWithProgress "mp4" "" "" "" false
        ⟨true, true, "xyz", [], true, [], 6, "/w"⟩ []).result =
      .error (.outputNotFound "could not find downloaded video file") ∧
    (DownloadVideoToDirWithProgress "mp4" "" "" "" false
        ⟨true, true, "xyz", [], true, [], 6, "/w"⟩ []).discovered = none := by
  have h := extension_probe_discovery.1 "mp4" "" "" "" false
    ⟨true, true, "xyz", [], true, [], 6, "/w"⟩ [] rfl rfl
  refine ⟨h.2.2 (by decide), ?_⟩
  rw [h.1]
  decide

/-- Counterexample to C5 as stated: a zip archive whose first name-matching
entry is the directory entry `ffmpeg/` (not a regular file) followed by the
regular file `bin/ffmpeg`.  The claim's selection rule (first regular-file
match, `specSelectEntry`) picks `bin/ffmpeg`, but `extractFFMPEGFromZip`
selects the directory entry `ffmpeg/` and streams its empty content, because
the Go zip loop never checks the entry type. -/
theorem zip_extractor_selects_directory_entry :
    extractFFMPEGFromZip false [⟨"ffmpeg/", false, []⟩, ⟨"bin/ffmpeg", true, [1]⟩] =
      .ok ⟨"ffmpeg", "ffmpeg/", [], true⟩ ∧
    specSelectEntry "ffmpeg" [⟨"ffmpeg/", false, []⟩, ⟨"bin/ffmpeg", true, [1]⟩] =
      some ⟨"bin/ffmpeg", true, [1]⟩ := by
  exact ⟨by decide, by decide⟩

/-- C5 (amended): extraction scans the entries in order and selects the first
entry whose name contains the target executable name and does not contain
`"doc"` — the sequential tar extractor additionally requires the entry to be a
regular file, while the zip extractor selects the first matching entry of any
kind; the selected entry's bytes are streamed to
`destinationDir/targetExecutableName`, the executable bit is set on
non-Windows (the tar path, used only on Linux, sets it unconditionally), and
the not-found error is returned exactly when the full scan finds no match; an
archive containing `bin/ffmpeg-doc` and `bin/ffmpeg` yields `bin/ffmpeg`. -/
theorem extractor_selection_spec :
    (∀ (isWindows : Bool) (entries : List ArchiveEntry),
      extractFFMPEGFromZip isWindows entries = zipExtractSpec isWindows entries) ∧
    (∀ entries : List ArchiveEntry,
      extractFFMPEGFromTar entries = tarExtractSpec entries) ∧
    extractFFMPEGFromZip false
        [⟨"bin/ffmpeg-doc", true, [9]⟩, ⟨"bin/ffmpeg", true, [1]⟩] =
      .ok ⟨"ffmpeg", "bin/ffmpeg", [1], true⟩ ∧
    extractFFMPEGFromTar
        [⟨"bin/ffmpeg-doc", true, [9]⟩, ⟨"bin/ffmpeg", true, [1]⟩] =
      .ok ⟨"ffmpeg", "bin/ffmpeg", [1], true⟩ := by
  refine ⟨?_, ?_, by decide, by decide⟩
  · intro isWindows entries
    induction entries with
    | nil => cases isWindows <;> rfl
    | cons e rest ih =>
      by_cases h1 : strContains e.name (if isWindows then "ffmpeg.exe" else "ffmpeg") = true <;>
        by_cases h2 : strContains e.name "doc" = true <;>
          simp [extractFFMPEGFromZip, zipExtractSpec, List.find?, h1, h2, ih]
  · intro entries
    induction entries with
    | nil => rfl
    | cons e rest ih =>
      by_cases h1 : strContains e.name "ffmpeg" = true <;>
        by_cases h2 : strContains e.name "doc" = true <;>
          by_cases h3 : e.isReg = true <;>
            simp [extractFFMPEGFromTar, tarExtractSpec, specSelectEntry, List.find?,
              h1, h2, h3, ih]

end GoStreamPuller
